import Mathlib

/-!
ImGraph graph-plotting engine: a shallow embedding.

This file embeds the plotting engine of `src/core/Core/Application.cpp`
(`Application::run`, the per-frame classify → sample → render section) in Lean 4
and proves properties of it.

Modelling conventions:
* `double` values produced by the expression-evaluation collaborator (exprtk) are
  modelled by `FVal`: a rational number, a signed infinity, or NaN, with the
  IEEE-754 sign/propagation rules for the operations the engine uses.  Rounding
  of finite arithmetic is not modelled (exact rationals are used), which is
  faithful for every predicate the engine tests (sign of a product, comparison
  with a bound, equality with 1.0).
* Expression text is a `List Char`.  The scanners mirror the C++ code
  character by character.
* The expression-evaluation collaborator (`exprtk::parser::compile` /
  `expression::value`) is out of scope per the specification; it is modelled as
  an `Oracle` parameter: given the source text and the list of bound variable
  names, it either fails (`none`) or yields an evaluation function from the
  current variable values to a double.  An expression object whose compilation
  failed evaluates to NaN, as exprtk documents.
* Helper functions from `funcs.hpp` (not part of the provided sources) are
  modelled from the specification's words; each such definition says so in its
  doc comment.
-/

namespace ImGraph

/-- A `double` as the engine observes it: finite (exact rational), `+inf`,
`-inf`, or NaN.  Signed zero is not distinguished (the engine never divides by
a computed zero on the paths modelled here). -/
inductive FVal where
  | fin (q : ℚ)
  | pinf
  | ninf
  | nan
  deriving DecidableEq, Repr

/-- IEEE negation on `FVal`. -/
def fneg : FVal → FVal
  | .fin q => .fin (-q)
  | .pinf => .ninf
  | .ninf => .pinf
  | .nan => .nan

/-- IEEE addition on `FVal` (finite part exact). -/
def fadd : FVal → FVal → FVal
  | .nan, _ => .nan
  | _, .nan => .nan
  | .fin a, .fin b => .fin (a + b)
  | .fin _, .pinf => .pinf
  | .pinf, .fin _ => .pinf
  | .fin _, .ninf => .ninf
  | .ninf, .fin _ => .ninf
  | .pinf, .pinf => .pinf
  | .ninf, .ninf => .ninf
  | .pinf, .ninf => .nan
  | .ninf, .pinf => .nan

/-- IEEE subtraction on `FVal`. -/
def fsub (a b : FVal) : FVal := fadd a (fneg b)

/-- IEEE multiplication on `FVal`: `0 * inf = NaN`, signs multiply. -/
def fmul : FVal → FVal → FVal
  | .nan, _ => .nan
  | _, .nan => .nan
  | .fin a, .fin b => .fin (a * b)
  | .fin a, .pinf => if 0 < a then .pinf else if a < 0 then .ninf else .nan
  | .pinf, .fin a => if 0 < a then .pinf else if a < 0 then .ninf else .nan
  | .fin a, .ninf => if 0 < a then .ninf else if a < 0 then .pinf else .nan
  | .ninf, .fin a => if 0 < a then .ninf else if a < 0 then .pinf else .nan
  | .pinf, .pinf => .pinf
  | .ninf, .ninf => .pinf
  | .pinf, .ninf => .ninf
  | .ninf, .pinf => .ninf

/-- IEEE division on `FVal`.  Division of a nonzero finite value by (positive)
zero gives the signed infinity; `0/0` and `inf/inf` give NaN. -/
def fdiv : FVal → FVal → FVal
  | .nan, _ => .nan
  | _, .nan => .nan
  | .fin a, .fin b =>
      if b = 0 then (if a = 0 then .nan else if 0 < a then .pinf else .ninf)
      else .fin (a / b)
  | .fin _, .pinf => .fin 0
  | .fin _, .ninf => .fin 0
  | .pinf, .fin b => if 0 ≤ b then .pinf else .ninf
  | .ninf, .fin b => if 0 ≤ b then .ninf else .pinf
  | .pinf, _ => .nan
  | .ninf, _ => .nan

/-- IEEE `<` on `FVal`: any comparison involving NaN is false. -/
def flt : FVal → FVal → Bool
  | .nan, _ => false
  | _, .nan => false
  | .fin a, .fin b => decide (a < b)
  | .fin _, .pinf => true
  | .pinf, .fin _ => false
  | .ninf, .fin _ => true
  | .fin _, .ninf => false
  | .ninf, .pinf => true
  | .pinf, .ninf => false
  | .pinf, .pinf => false
  | .ninf, .ninf => false

/-- Whether `v` is a finite double. -/
def isFiniteV : FVal → Bool
  | .fin _ => true
  | _ => false

/-- Whether `v` is strictly positive (a positive rational or `+inf`); NaN and zero are
not positive. -/
def isPosV : FVal → Prop := fun v => v = .pinf ∨ ∃ q : ℚ, 0 < q ∧ v = .fin q

/-- Whether `v` is strictly negative (a negative rational or `-inf`); NaN and zero are
not negative. -/
def isNegV : FVal → Prop := fun v => v = .ninf ∨ ∃ q : ℚ, q < 0 ∧ v = .fin q

/-- Expression text, character by character. -/
abbrev Str := List Char

/-- Whitespace as the engine strips it (space and tab, as in the polar branch's
`find_first_not_of(" \t")`). -/
def isWs (c : Char) : Bool := c = ' ' ∨ c = '\t'

/-- Modelled from the spec: `trim` from `funcs.hpp` (not under `src/`), which
produces "trimmed" sides/components — strip leading and trailing whitespace. -/
def trim (s : Str) : Str :=
  ((s.dropWhile isWs).reverse.dropWhile isWs).reverse

/-- Modelled from the spec: `hasInequalityOperator` from `funcs.hpp` (not under
`src/`) — "text contains a relational inequality operator (`<`, `>`, `<=`,
`>=`, excluding equality/assignment tokens)", i.e. a `<` or `>` character. -/
def hasInequalityOperator (s : Str) : Bool := s.any (fun c => c = '<' ∨ c = '>')

/-- Modelled from the spec: worker for `findTopLevelEquals` — scan left to
right tracking parenthesis depth and the previous character, and return the
index of the first depth-0 `=` that is single (not part of `==`, `<=`, `>=`). -/
def findTopEqGo : Str → Int → Option Char → Nat → Option Nat
  | [], _, _, _ => none
  | c :: rest, d, prev, i =>
    if c = '(' then findTopEqGo rest (d + 1) (some c) (i + 1)
    else if c = ')' then findTopEqGo rest (d - 1) (some c) (i + 1)
    else if c = '=' ∧ d = 0 ∧ rest.head? ≠ some '=' ∧ prev ≠ some '=' ∧
        prev ≠ some '<' ∧ prev ≠ some '>' then some i
    else findTopEqGo rest d (some c) (i + 1)

/-- Modelled from the spec: `findTopLevelEquals` from `funcs.hpp` (not under
`src/`) — "for single `=`, scan for the first depth-0 `=` (single, not part of
`==`, `<=`, `>=`)". -/
def findTopLevelEquals (s : Str) : Option Nat := findTopEqGo s 0 none 0

/-- Worker shared by `hasEqualsEqualsOperator` and the `==` re-scan in
`Application::run` (lines 343–351): the first depth-0 index where two
consecutive `=` characters start. -/
def findEqEqGo : Str → Int → Nat → Option Nat
  | [], _, _ => none
  | c :: rest, d, i =>
    if c = '(' then findEqEqGo rest (d + 1) (i + 1)
    else if c = ')' then findEqEqGo rest (d - 1) (i + 1)
    else if d = 0 ∧ c = '=' ∧ rest.head? = some '=' then some i
    else findEqEqGo rest d (i + 1)

/-- Modelled from the spec: `hasEqualsEqualsOperator` from `funcs.hpp` (not
under `src/`) — the text contains a top-level `==` ("scan for the first
depth-0 occurrence of two consecutive `=` characters"). -/
def hasEqualsEqualsOperator (s : Str) : Bool := (findEqEqGo s 0 0).isSome

/-- Whether `pat` occurs at the start of `s`. -/
def matchAt (s pat : Str) : Bool := decide (s.take pat.length = pat)

/-- Worker for substring search, mirroring `std::string::find`. -/
def findSubGo : Str → Str → Nat → Option Nat
  | [], pat, i => if pat = [] then some i else none
  | c :: rest, pat, i =>
    if matchAt (c :: rest) pat then some i else findSubGo rest pat (i + 1)

/-- Mirror of `std::string::find(pat)`: index of the first occurrence of `pat` in `s`. -/
def findSub (s pat : Str) : Option Nat := findSubGo s pat 0

/-- Mirror of `std::string::find(c, from)`: index of the first occurrence of character
`c` in `s` at or after index `from`. -/
def findCharFrom (s : Str) (c : Char) (from0 : Nat) : Option Nat :=
  (findSubGo (s.drop from0) [c] 0).map (· + from0)

/-- Worker for the parametric split (lines 223–235): scan the interior left to
right tracking parenthesis nesting depth; the first top-level comma splits it. -/
def splitTopCommaGo : Str → Int → Str → Option (Str × Str)
  | [], _, _ => none
  | c :: rest, d, acc =>
    if c = '(' then splitTopCommaGo rest (d + 1) (c :: acc)
    else if c = ')' then splitTopCommaGo rest (d - 1) (c :: acc)
    else if c = ',' ∧ d = 0 then some (acc.reverse, rest)
    else splitTopCommaGo rest d (c :: acc)

/-- Split at the first top-level comma. -/
def splitTopComma (s : Str) : Option (Str × Str) := splitTopCommaGo s 0 []

/-- The parametric test (lines 220–239): the text begins with `(` and ends with
`)`, and the interior has a top-level comma; the two components are trimmed.
Returns `some (f, g)` when the parametric branch will attempt to compile. -/
def parMatch (s : Str) : Option (Str × Str) :=
  if s.head? = some '(' ∧ s.getLast? = some ')' then
    match splitTopComma ((s.drop 1).dropLast) with
    | some (a, b) => some (trim a, trim b)
    | none => none
  else none

/-- Recombination of an equality into a zero-level-set expression
(lines 354–362): `"(" + lhs + ") - (" + rhs + ")"`. -/
def combineImplicit (lhs rhs : Str) : Str :=
  ['('] ++ lhs ++ [')', ' ', '-', ' ', '('] ++ rhs ++ [')']

/-- The implicit-equality branch's selected sub-expression (lines 329–363):
entered when a top-level single `=` or a top-level `==` exists; the `==` split
is preferred when `hasEqualsEqualsOperator` holds, else the single-`=` split.
Returns the reduced form `(lhs) - (rhs)` handed to the compiler. -/
def implicitForm (s : Str) : Option Str :=
  if (findTopLevelEquals s).isSome ∨ hasEqualsEqualsOperator s then
    match findEqEqGo s 0 0 with
    | some i => some (combineImplicit (trim (s.take i)) (trim (s.drop (i + 2))))
    | none =>
      match findTopLevelEquals s with
      | some j => some (combineImplicit (trim (s.take j)) (trim (s.drop (j + 1))))
      | none => none
  else none

/-- The polar test (line 449): a plain substring search, at any parenthesis
depth, for `r=` or `r =`. -/
def isPolarStr (s : Str) : Bool :=
  (findSub s ['r', '=']).isSome ∨ (findSub s ['r', ' ', '=']).isSome

/-- The radius expression handed to the compiler by the polar branch
(lines 462–471): the portion after the first `=` at or after the found prefix,
with leading spaces/tabs erased.  Mirrors the C++ including the untouched
default when no prefix is found. -/
def polarRadius (s : Str) : Str :=
  let eqPos := match findSub s ['r', '='] with
    | some i => some i
    | none => findSub s ['r', ' ', '=']
  match eqPos with
  | none => s
  | some i =>
    match findCharFrom s '=' i with
    | some j => (s.drop (j + 1)).dropWhile isWs
    | none => s.dropWhile isWs

/-- The classified form of an expression: the transient per-frame tagged value. -/
inductive Form where
  | parametricF (f g : Str)
  | inequalityF (e : Str)
  | implicitF (e : Str)
  | polarF (r : Str)
  | explicitF (e : Str)
  deriving DecidableEq, Repr

/-- The branch-selection order of `Application::run` (lines 218–531): the first
branch whose textual match condition holds, in source order — parametric, then
inequality, then implicit, then polar, with explicit as the default.  Each
payload is the sub-expression text that branch hands to the compiler. -/
def classify (s : Str) : Form :=
  match parMatch s with
  | some (f, g) => .parametricF f g
  | none =>
    if hasInequalityOperator s then .inequalityF s
    else
      match implicitForm s with
      | some e => .implicitF e
      | none => if isPolarStr s then .polarF (polarRadius s) else .explicitF s

/-- The values taken by a C loop `for (v = lo; v <= hi; v += step)` in exact
arithmetic: `lo, lo + step, …` while `≤ hi`. -/
def sampleRange (lo hi step : ℚ) : List ℚ :=
  if 0 < step ∧ lo ≤ hi then
    (List.range ((Int.floor ((hi - lo) / step)).toNat + 1)).map
      (fun k : ℕ => lo + (k : ℚ) * step)
  else []

/-- The number of iterations of a C loop `for (v = start; v < limit; v += inc)`
(`inc > 0`) in exact arithmetic. -/
def countLt (start limit inc : ℚ) : ℕ :=
  if 0 < inc then (Int.ceil ((limit - start) / inc)).toNat else 0

/-- The doubling loop of the gridline pass (lines 181–183):
`float step = 1.0f; while (step * zoom < minPixelSpacing) step *= 2.0f;` with
`minPixelSpacing = 20`.  Structural fuel bounds the doublings; 64 is ample for
every zoom the slider admits (the characterisation below is proved for
`1 ≤ zoom`). -/
def gridStepLoop : ℕ → ℚ → ℚ → ℚ
  | 0, _, step => step
  | fuel + 1, z, step => if step * z < 20 then gridStepLoop fuel z (2 * step) else step

/-- The world-unit step selected by the light gridline pass. -/
def lightGridStep (z : ℚ) : ℚ := gridStepLoop 64 z 1

/-- Per-frame viewport state: `zoom`, canvas size `w × h`, pan `originOffset`
`(ox, oy)`, canvas top-left `canvas_p0` `(px, py)`. -/
structure Params where
  z : ℚ
  w : ℚ
  h : ℚ
  ox : ℚ
  oy : ℚ
  px : ℚ
  py : ℚ

/-- Screen x of the world origin (lines 167–170): canvas centre plus pan. -/
def originX (P : Params) : ℚ := P.px + P.w / 2 + P.ox

/-- Screen y of the world origin. -/
def originY (P : Params) : ℚ := P.py + P.h / 2 + P.oy

/-- Screen x-positions of the vertical gridlines (lines 187–196): for
`x = k * step` while `origin.x + x * zoom < canvas_p1.x`, two lines at
`origin.x ± x * zoom`, skipping `x = 0`. -/
def vertLinesOf (P : Params) : List ℚ :=
  (List.range (countLt (originX P) (P.px + P.w) (lightGridStep P.z * P.z))).flatMap
    (fun k => if k = 0 then [] else
      [originX P + (k * lightGridStep P.z) * P.z, originX P - (k * lightGridStep P.z) * P.z])

/-- Screen y-positions of the horizontal gridlines (lines 199–208). -/
def horizLinesOf (P : Params) : List ℚ :=
  (List.range (countLt (originY P) (P.py + P.h) (lightGridStep P.z * P.z))).flatMap
    (fun k => if k = 0 then [] else
      [originY P + (k * lightGridStep P.z) * P.z, originY P - (k * lightGridStep P.z) * P.z])

/-- The expression-evaluation collaborator: `compile(text, bindings)` yields
`none` on a compile failure, or an evaluation function from the current values
of the bound variables (in binding order) to a double. -/
def Oracle : Type := Str → List Str → Option (List ℚ → FVal)

/-- Binding set of the parametric branch: variable `t`. -/
def tVars : List Str := [['t']]

/-- Binding set of the inequality and implicit branches: variables `x`, `y`. -/
def xyVars : List Str := [['x'], ['y']]

/-- Binding set of the polar branch: variable `theta`. -/
def thetaVars : List Str := [['t', 'h', 'e', 't', 'a']]

/-- Binding set of the explicit branch: variable `x`. -/
def xVars : List Str := [['x']]

/-- World → screen for double-valued world coordinates:
`(origin.x + vx * zoom, origin.y - vy * zoom)`. -/
def toScreenF (P : Params) (vx vy : FVal) : FVal × FVal :=
  (fadd (.fin (originX P)) (fmul vx (.fin P.z)),
   fsub (.fin (originY P)) (fmul vy (.fin P.z)))

/-- The parameter samples of the parametric branch (lines 259–263):
`t` from `-10` to `10` at step `0.02`, a fixed list independent of the
viewport. -/
def paramTs : List ℚ := sampleRange (-10) 10 (1 / 50)

/-- The parametric branch (lines 220–283): on a parenthesised text with a
top-level comma, compile both components over `t`; if both compile, emit the
polyline of the sampled curve and set `plotted`. -/
def parOut (o : Oracle) (s : Str) (P : Params) : Option (List (FVal × FVal)) :=
  match parMatch s with
  | none => none
  | some (f, g) =>
    match o f tVars, o g tVars with
    | some ef, some eg => some (paramTs.map (fun t => toScreenF P (ef [t]) (eg [t])))
    | _, _ => none

/-- Lower bound of the sampled world interval for a canvas extent `c`
(lines 301–304 and 383–386): `-c / (2 * zoom)`.  Note the pan offset is not
consulted. -/
def gridLo (c z : ℚ) : ℚ := -c / (2 * z)

/-- Upper bound of the sampled world interval: `c / (2 * zoom)`. -/
def gridHi (c z : ℚ) : ℚ := c / (2 * z)

/-- Grid step of the inequality branch (line 307): `max(0.025, 1.5 / zoom)`. -/
def ineqStep (z : ℚ) : ℚ := max (1 / 40) (3 / (2 * z))

/-- Dot radius of the inequality branch (line 309): `max(1.5f, zoom / 60)`. -/
def ineqRadius (z : ℚ) : ℚ := max (3 / 2) (z / 60)

/-- The dots drawn by the inequality branch (lines 312–322): every grid point
whose expression value is exactly `1.0`, as `(world point, screen point)`. -/
def ineqDotsOf (e : List ℚ → FVal) (P : Params) : List ((ℚ × ℚ) × (ℚ × ℚ)) :=
  (sampleRange (gridLo P.h P.z) (gridHi P.h P.z) (ineqStep P.z)).flatMap (fun y =>
    (sampleRange (gridLo P.w P.z) (gridHi P.w P.z) (ineqStep P.z)).filterMap (fun x =>
      if e [x, y] = .fin 1 then
        some ((x, y), (originX P + x * P.z, originY P - y * P.z))
      else none))

/-- The inequality branch (lines 286–326): guarded on nothing plotted yet and
`hasInequalityOperator`; `plotted` is set whenever the compile succeeds. -/
def ineqOut (o : Oracle) (s : Str) (P : Params) : Option (List ((ℚ × ℚ) × (ℚ × ℚ))) :=
  if (parOut o s P).isSome then none
  else if hasInequalityOperator s then
    match o s xyVars with
    | some e => some (ineqDotsOf e P)
    | none => none
  else none

/-- Grid step of the implicit branch (line 387): `max(0.008, 1.0 / zoom)`. -/
def implStep (z : ℚ) : ℚ := max (1 / 125) (1 / z)

/-- The interpolated zero position emitted at a crossing (lines 402–403 and
427–429): `(x - step) + t * step` with `t = prev / (prev - curr)`, computed in
double arithmetic. -/
def interp (step x : ℚ) (prev curr : FVal) : FVal :=
  fadd (.fin (x - step)) (fmul (fdiv prev (fsub prev curr)) (.fin step))

/-- The sign-change test of the implicit scans (lines 400 and 425):
`prev_val * curr_val < 0` in double arithmetic. -/
def crossingB (prev curr : FVal) : Bool := flt (fmul prev curr) (.fin 0)

/-- One scan line, carrying the previous sample value, emitting an
interpolated position at every detected crossing. -/
def crossAux (step : ℚ) (f : ℚ → FVal) : FVal → List ℚ → List FVal
  | _, [] => []
  | prev, x :: rest =>
    (if crossingB prev (f x) then [interp step x prev (f x)] else []) ++
      crossAux step f (f x) rest

/-- Crossings found along one scan line (the first sample only seeds `prev`,
mirroring the `first` flag of lines 394–395). -/
def crossings (step : ℚ) (f : ℚ → FVal) : List ℚ → List FVal
  | [] => []
  | x :: rest => crossAux step f (f x) rest

/-- The points drawn by the implicit branch (lines 392–439): the horizontal
scan (rows, varying `x`) followed by the vertical scan (columns, varying `y`),
each mapped to screen coordinates. -/
def implDotsOf (g : List ℚ → FVal) (P : Params) : List (FVal × FVal) :=
  ((sampleRange (gridLo P.h P.z) (gridHi P.h P.z) (implStep P.z)).flatMap (fun y =>
    (crossings (implStep P.z) (fun x => g [x, y])
        (sampleRange (gridLo P.w P.z) (gridHi P.w P.z) (implStep P.z))).map
      (fun xz => (fadd (.fin (originX P)) (fmul xz (.fin P.z)),
                  .fin (originY P - y * P.z))))) ++
  ((sampleRange (gridLo P.w P.z) (gridHi P.w P.z) (implStep P.z)).flatMap (fun x =>
    (crossings (implStep P.z) (fun y => g [x, y])
        (sampleRange (gridLo P.h P.z) (gridHi P.h P.z) (implStep P.z))).map
      (fun yz => (.fin (originX P + x * P.z),
                  fsub (.fin (originY P)) (fmul yz (.fin P.z))))))

/-- The implicit branch (lines 329–445): guarded on nothing plotted yet and a
top-level `=` or `==`; `plotted` is set only when the recombined expression
compiles. -/
def implOut (o : Oracle) (s : Str) (P : Params) : Option (List (FVal × FVal)) :=
  if (parOut o s P).isSome ∨ (ineqOut o s P).isSome then none
  else
    match implicitForm s with
    | some ie =>
      match o ie xyVars with
      | some g => some (implDotsOf g P)
      | none => none
    | none => none

/-- The value of the double constant `M_PI` (exactly representable rational). -/
def MPI : ℚ := 884279719003555 / 281474976710656

/-- The angle samples of the polar branch (lines 475–479): `theta` from `0` to
`4π` at step `0.02`. -/
def polarThetas : List ℚ := sampleRange 0 (4 * MPI) (1 / 50)

/-- The polar polyline (lines 479–494): `x = r·cos(theta)`, `y = r·sin(theta)`
mapped to screen.  `tg` is the C math library: `tg θ = (cos θ, sin θ)` as
doubles. -/
def polarPts (tg : ℚ → ℚ × ℚ) (e : List ℚ → FVal) (P : Params) : List (FVal × FVal) :=
  polarThetas.map (fun θ =>
    toScreenF P (fmul (e [θ]) (.fin (tg θ).1)) (fmul (e [θ]) (.fin (tg θ).2)))

/-- The polar arm of the final conditional (lines 447–495): guarded on nothing
plotted yet and the substring test `isPolarStr`; draws only if the radius
expression compiles.  (This arm never sets `plotted`; no branch follows it.) -/
def polarOut (o : Oracle) (tg : ℚ → ℚ × ℚ) (s : Str) (P : Params) :
    Option (List (FVal × FVal)) :=
  if (parOut o s P).isSome ∨ (ineqOut o s P).isSome ∨ (implOut o s P).isSome then none
  else if isPolarStr s then
    match o (polarRadius s) thetaVars with
    | some e => some (polarPts tg e P)
    | none => none
  else none

/-- Visible world-x lower bound used by the explicit branch (line 511):
`(-canvas_sz.x * 0.5 - originOffset.x) / zoom` — this one does consult the
pan. -/
def explLo (P : Params) : ℚ := (-P.w / 2 - P.ox) / P.z

/-- Visible world-x upper bound used by the explicit branch (line 512). -/
def explHi (P : Params) : ℚ := (P.w / 2 - P.ox) / P.z

/-- The explicit polyline (lines 515–529): sample the visible x-range at step
`0.05` and map `(x, f(x))` to screen. -/
def explPts (e : List ℚ → FVal) (P : Params) : List (FVal × FVal) :=
  (sampleRange (explLo P) (explHi P) (1 / 20)).map (fun x => toScreenF P (.fin x) (e [x]))

/-- The explicit arm of the final conditional (lines 496–530): guarded on
nothing plotted yet and not polar.  The result of `parser.compile` is
discarded (line 508), so the polyline is emitted unconditionally; an
expression object whose compile failed evaluates to NaN. -/
def explOut (o : Oracle) (s : Str) (P : Params) : Option (List (FVal × FVal)) :=
  if (parOut o s P).isSome ∨ (ineqOut o s P).isSome ∨ (implOut o s P).isSome then none
  else if isPolarStr s then none
  else some (explPts ((o s xVars).getD (fun _ => .nan)) P)

/-- Everything one frame of the plotting section emits for the (single)
expression buffer: the gridline pass and the five plotting branches. -/
structure FrameOut where
  gridStep : ℚ
  vertLines : List ℚ
  horizLines : List ℚ
  parametricPoly : Option (List (FVal × FVal))
  inequalityDots : Option (List ((ℚ × ℚ) × (ℚ × ℚ)))
  inequalityDotRadius : ℚ
  implicitPts : Option (List (FVal × FVal))
  polarPoly : Option (List (FVal × FVal))
  explicitPoly : Option (List (FVal × FVal))

/-- One frame of the plotting section of `Application::run` (lines 175–531). -/
def frame (o : Oracle) (tg : ℚ → ℚ × ℚ) (s : Str) (P : Params) : FrameOut :=
  { gridStep := lightGridStep P.z
    vertLines := vertLinesOf P
    horizLines := horizLinesOf P
    parametricPoly := parOut o s P
    inequalityDots := ineqOut o s P
    inequalityDotRadius := ineqRadius P.z
    implicitPts := implOut o s P
    polarPoly := polarOut o tg s P
    explicitPoly := explOut o s P }

/-- The adjacent-pairs reformulation of a scan line: a point between each pair
of consecutive samples that crosses. -/
def crossingsSpec (step : ℚ) (f : ℚ → FVal) (xs : List ℚ) : List FVal :=
  (xs.zip xs.tail).filterMap (fun p =>
    if crossingB (f p.1) (f p.2) then some (interp step p.2 (f p.1) (f p.2)) else none)

/-- The compile-everything-fails collaborator (e.g. every queried text contains
an unbound symbol). -/
def failOracle : Oracle := fun _ _ => none

/-- A collaborator for which every queried text compiles and evaluates to the
boolean-true double `1.0`. -/
def oneOracle : Oracle := fun _ _ => some (fun _ => .fin 1)

/-- A concrete trig collaborator placeholder (values are irrelevant to the
statements that use it). -/
def tgDemo : ℚ → ℚ × ℚ := fun _ => (1, 0)

/-- A small concrete viewport: zoom 100, canvas 10 × 10 at the window origin,
no pan. -/
def Pdemo : Params := ⟨100, 10, 10, 0, 0, 0, 0⟩

/-- A concrete viewport for the gridline statements: zoom 25, canvas 60 × 1,
no pan. -/
def Pgrid : Params := ⟨25, 60, 1, 0, 0, 0, 0⟩

/-- The zoom update performed by the only zoom-mutating operation in `run()`
(line 125): `ImGui::SliderFloat("Graph Scale", &zoom, 10.0f, 500.0f)`, whose
contract clamps the written value to the slider bounds `[10, 500]`. -/
def zoomUpdate (requested : ℚ) : ℚ := max 10 (min requested 500)

/-- The initial zoom (line 117): `static float zoom = 100.0f`. -/
def zoomInit : ℚ := 100

/-- The operation the claim describes: a clamp into the interval `[10, 1000]`. -/
def zoomClampClaim (requested : ℚ) : ℚ := max 10 (min requested 1000)

/-- What the specification calls the visible world-x lower bound: derived from
canvas width, zoom and pan (this is the spec's wording; compare `gridLo`,
which ignores the pan). -/
def specVisibleXLo (w z ox : ℚ) : ℚ := (-w / 2 - ox) / z

/-- Worker for the detection the claim describes: does `pat` occur at some
position whose parenthesis depth is 0? -/
def depth0MatchGo (pat : Str) : Str → Int → Bool
  | [], _ => false
  | c :: rest, d =>
    (decide (d = 0) && matchAt (c :: rest) pat) ||
      depth0MatchGo pat rest (if c = '(' then d + 1 else if c = ')' then d - 1 else d)

/-- The polar detection the claim describes: a depth-0 substring search for
the literal prefix `r=` or `r =` (compare `isPolarStr`, the plain
`std::string::find` of the code, which matches at any depth). -/
def depth0PolarDetect (s : Str) : Bool :=
  depth0MatchGo ['r', '='] s 0 || depth0MatchGo ['r', ' ', '='] s 0

/-- The number of plotting strategies that emit curve primitives for the
expression in one frame: the parametric, polar and explicit branches emit one
polyline when they run; the inequality and implicit branches emit their dot
lists. -/
def emitsCount (o : Oracle) (tg : ℚ → ℚ × ℚ) (s : Str) (P : Params) : ℕ :=
  (if (parOut o s P).isSome then 1 else 0) +
  (if (ineqOut o s P).getD [] ≠ [] then 1 else 0) +
  (if (implOut o s P).getD [] ≠ [] then 1 else 0) +
  (if (polarOut o tg s P).isSome then 1 else 0) +
  (if (explOut o s P).isSome then 1 else 0)

lemma ineqStep_pos (z : ℚ) : 0 < ineqStep z :=
  lt_of_lt_of_le (by norm_num) (le_max_left _ _)

lemma sampleRange_idx_iff {lo hi step : ℚ} (hs : 0 < step) (hlh : lo ≤ hi) (k : ℕ) :
    k < (Int.floor ((hi - lo) / step)).toNat + 1 ↔ lo + k * step ≤ hi := by
  have hc : (0:ℚ) ≤ (hi - lo) / step := div_nonneg (by linarith) hs.le
  have hfl : (0:ℤ) ≤ Int.floor ((hi - lo) / step) := Int.floor_nonneg.2 hc
  constructor
  · intro hk
    have h1 : (k : ℤ) ≤ Int.floor ((hi - lo) / step) := by omega
    have h2 : (k : ℚ) ≤ (hi - lo) / step := by exact_mod_cast Int.le_floor.1 h1
    have h3 : (k : ℚ) * step ≤ hi - lo := (le_div_iff₀ hs).1 h2
    linarith
  · intro hk
    have h3 : (k : ℚ) * step ≤ hi - lo := by linarith
    have h2 : (k : ℚ) ≤ (hi - lo) / step := (le_div_iff₀ hs).2 h3
    have h1 : (k : ℤ) ≤ Int.floor ((hi - lo) / step) := Int.le_floor.2 (by exact_mod_cast h2)
    omega

lemma mem_sampleRange {lo hi step v : ℚ} (hs : 0 < step) :
    v ∈ sampleRange lo hi step ↔ ∃ k : ℕ, v = lo + k * step ∧ v ≤ hi := by
  by_cases hlh : lo ≤ hi
  · rw [sampleRange, if_pos (And.intro hs hlh)]
    constructor
    · intro hv
      obtain ⟨k, hk, hkv⟩ := List.mem_map.1 hv
      exact ⟨k, hkv.symm, hkv ▸ (sampleRange_idx_iff hs hlh k).1 (List.mem_range.1 hk)⟩
    · rintro ⟨k, rfl, hle⟩
      exact List.mem_map.2 ⟨k, List.mem_range.2 ((sampleRange_idx_iff hs hlh k).2 hle), rfl⟩
  · rw [sampleRange, if_neg (fun h => hlh h.2)]
    simp only [List.not_mem_nil, false_iff, not_exists, not_and]
    rintro k rfl
    have h0 : (0:ℚ) ≤ (k : ℚ) * step := by positivity
    have h1 : hi < lo := not_le.1 hlh
    intro hle
    linarith

lemma gridStepLoop_stop {z step : ℚ} (h : ¬ step * z < 20) (fuel : ℕ) :
    gridStepLoop fuel z step = step := by
  cases fuel <;> simp [gridStepLoop, h]

lemma gridStepLoop_spec (z : ℚ) :
    ∀ (fuel : ℕ) (step : ℚ), 0 < step → 20 ≤ step * 2 ^ fuel * z →
      20 ≤ gridStepLoop fuel z step * z ∧
      (gridStepLoop fuel z step ≠ step → gridStepLoop fuel z step / 2 * z < 20) ∧
      ∃ k : ℕ, gridStepLoop fuel z step = step * 2 ^ k := by
  intro fuel
  induction fuel with
  | zero =>
    intro step hstep hfuel
    refine ⟨by simpa [gridStepLoop] using hfuel, fun h => absurd rfl h, 0, by simp [gridStepLoop]⟩
  | succ n ih =>
    intro step hstep hfuel
    by_cases h : step * z < 20
    · have hstep2 : 0 < 2 * step := by linarith
      have hfuel2 : 20 ≤ 2 * step * 2 ^ n * z := by
        have : step * 2 ^ (n + 1) = 2 * step * 2 ^ n := by ring
        linarith [hfuel, this ▸ hfuel]
      obtain ⟨hge, hmin, k, hk⟩ := ih (2 * step) hstep2 hfuel2
      rw [gridStepLoop, if_pos h]
      refine ⟨hge, fun _ => ?_, k + 1, by rw [hk]; ring⟩
      by_cases hres : gridStepLoop n z (2 * step) = 2 * step
      · rw [hres]
        have : 2 * step / 2 = step := by ring
        rw [this]
        exact h
      · exact hmin hres
    · rw [gridStepLoop, if_neg h]
      exact ⟨not_lt.1 h, fun hc => absurd rfl hc, 0, by ring⟩

lemma crossAux_spec (step : ℚ) (f : ℚ → FVal) :
    ∀ (xs : List ℚ) (x : ℚ),
      crossAux step f (f x) xs = ((x :: xs).zip xs).filterMap (fun p =>
        if crossingB (f p.1) (f p.2) then some (interp step p.2 (f p.1) (f p.2))
        else none) := by
  intro xs
  induction xs with
  | nil => intro x; simp [crossAux]
  | cons y rest ih =>
    intro x
    rw [crossAux]
    by_cases h : crossingB (f x) (f y)
    · simp [h, List.filterMap_cons, ih y]
    · simp [h, List.filterMap_cons, ih y]

lemma crossings_eq_spec (step : ℚ) (f : ℚ → FVal) (xs : List ℚ) :
    crossings step f xs = crossingsSpec step f xs := by
  cases xs with
  | nil => rfl
  | cons x rest => simpa [crossings, crossingsSpec] using crossAux_spec step f rest x

lemma crossingB_iff (p c : FVal) :
    crossingB p c = true ↔ (isPosV p ∧ isNegV c) ∨ (isNegV p ∧ isPosV c) := by
  cases p <;> cases c <;>
    simp only [crossingB, fmul, flt, isPosV, isNegV, FVal.fin.injEq,
      decide_eq_true_eq, reduceCtorEq] <;> try simp
  case fin.fin => exact mul_neg_iff
  case fin.pinf => split_ifs with h1 h2 <;> simp_all <;> linarith
  case fin.ninf => split_ifs with h1 h2 <;> simp_all
  case pinf.fin => split_ifs with h1 h2 <;> simp_all <;> linarith
  case ninf.fin => split_ifs with h1 h2 <;> simp_all

lemma interp_fin {a b : ℚ} (step x : ℚ) (hab : a * b < 0) :
    interp step x (.fin a) (.fin b) = .fin ((x - step) + a / (a - b) * step) := by
  have hne : a + -b ≠ 0 := by
    rcases mul_neg_iff.1 hab with ⟨ha, hb⟩ | ⟨ha, hb⟩ <;> intro h <;> linarith
  simp only [interp, fsub, fadd, fneg, fdiv, fmul]
  rw [if_neg hne]
  show FVal.fin (x - step + a / (a + -b) * step) = FVal.fin (x - step + a / (a - b) * step)
  rw [sub_eq_add_neg a b]

lemma findSubGo_isSome_iff (pat : Str) (hpat : pat ≠ []) :
    ∀ (s : Str) (i : ℕ),
      (findSubGo s pat i).isSome = true ↔ ∃ j : ℕ, (s.drop j).take pat.length = pat := by
  intro s
  induction s with
  | nil =>
    intro i
    simp only [findSubGo, if_neg hpat, Option.isSome_none, Bool.false_eq_true, false_iff,
      not_exists]
    intro j h
    apply hpat
    rw [List.drop_nil] at h
    simpa using h.symm
  | cons c rest ih =>
    intro i
    rw [findSubGo]
    by_cases h : matchAt (c :: rest) pat
    · simp only [if_pos h, Option.isSome_some, true_iff]
      exact ⟨0, of_decide_eq_true h⟩
    · rw [if_neg h, ih (i + 1)]
      constructor
      · rintro ⟨j, hj⟩
        exact ⟨j + 1, by simpa using hj⟩
      · rintro ⟨j, hj⟩
        cases j with
        | zero =>
          exfalso
          apply h
          simp only [matchAt]
          exact decide_eq_true (by simpa using hj)
        | succ j => exact ⟨j, by simpa using hj⟩

/-- Claim C1, counterexample.  Under the branch order of the code (parametric,
inequality, implicit, polar, explicit — first textual match wins), the input
`"r=1+0.5*cos(theta)"` contains a top-level single `=` and therefore
first-matches the *implicit* branch, with reduced form
`(r) - (1+0.5*cos(theta))`; it does not classify as `Polar` as the claim
states.  (At run time it is nevertheless rendered by the polar branch, but
only because `(r) - (…)` fails to compile — `r` is unbound — and control falls
through, the very fallback the specification denies.) -/
theorem c1_counterexample :
    classify "r=1+0.5*cos(theta)".toList =
      .implicitF "(r) - (1+0.5*cos(theta))".toList ∧
    classify "r=1+0.5*cos(theta)".toList ≠ .polarF "1+0.5*cos(theta)".toList := by
  decide

/-- Claim C1, amended.  Branch selection is the fixed five-way precedence
parametric → inequality → implicit → polar → explicit, first match wins, a
total deterministic function of the text (`classify` is a function).  The five
spec examples classify as: Parametric `(cos(t), sin(t))`; Inequality;
Implicit with reduced form `(x^2+y^2) - (4)`; but `"r=1+0.5*cos(theta)"`
first-matches Implicit with reduced form `(r) - (1+0.5*cos(theta))` (it is
rendered by the polar branch only after that compile fails); and Explicit
`sin(x)`. -/
theorem c1_amendedThm :
    classify "(cos(t), sin(t))".toList =
      .parametricF "cos(t)".toList "sin(t)".toList ∧
    classify "x^2+y^2<4".toList = .inequalityF "x^2+y^2<4".toList ∧
    classify "x^2+y^2=4".toList = .implicitF "(x^2+y^2) - (4)".toList ∧
    classify "r=1+0.5*cos(theta)".toList =
      .implicitF "(r) - (1+0.5*cos(theta))".toList ∧
    classify "sin(x)".toList = .explicitF "sin(x)".toList := by
  decide

/-- Claim C2, counterexample.  The text `"(a, b)"` selects the parametric form
(`parMatch` succeeds) and its components fail to compile under `failOracle`,
yet the expression *is* subsequently tried as explicit: the explicit branch
runs and emits its polyline (built from the constantly-NaN evaluation of the
failed compile).  So a compile failure of the selected form neither suppresses
all drawing nor prevents fallback to a later branch. -/
theorem c2_counterexample :
    parMatch "(a, b)".toList = some ("a".toList, "b".toList) ∧
    failOracle "a".toList tVars = none ∧
    parOut failOracle "(a, b)".toList Pdemo = none ∧
    (explOut failOracle "(a, b)".toList Pdemo).isSome = true :=
  ⟨by decide, rfl, by decide, by decide⟩

/-- Claim C2, amended.  When the parametric form is selected and a component
fails to compile, the parametric branch draws nothing, but control falls
through to the later branches; if no later match condition holds either
(no inequality operator, no top-level equality, no polar prefix), the
expression is re-tried by the explicit branch, which emits its polyline
unconditionally — built from the NaN evaluation when its own compile also
fails. -/
theorem c2_amendedThm (o : Oracle) (s : Str) (P : Params) (f g : Str)
    (hpar : parMatch s = some (f, g))
    (hfail : o f tVars = none ∨ o g tVars = none)
    (hineq : hasInequalityOperator s = false)
    (himpl : implicitForm s = none)
    (hpol : isPolarStr s = false) :
    parOut o s P = none ∧
    explOut o s P = some (explPts ((o s xVars).getD (fun _ => .nan)) P) := by
  have h1 : parOut o s P = none := by
    rcases hfail with h | h
    · cases hg' : o g tVars <;> simp [parOut, hpar, h, hg']
    · cases hf' : o f tVars <;> simp [parOut, hpar, h, hf']
  have h2 : ineqOut o s P = none := by
    unfold ineqOut
    rw [if_neg (by simp [h1]), if_neg (by simp [hineq])]
  have h3 : implOut o s P = none := by
    unfold implOut
    rw [if_neg (by simp [h1, h2]), himpl]
  refine ⟨h1, ?_⟩
  unfold explOut
  rw [if_neg (by simp [h1, h2, h3]), if_neg (by simp [hpol])]

/-- Witness for `c2_amendedThm` at the concrete input of `c2_counterexample`. -/
theorem c2_amendedWitness :
    (parMatch "(a, b)".toList = some ("a".toList, "b".toList) ∧
     (failOracle "a".toList tVars = none ∨ failOracle "b".toList tVars = none) ∧
     hasInequalityOperator "(a, b)".toList = false ∧
     implicitForm "(a, b)".toList = none ∧
     isPolarStr "(a, b)".toList = false) ∧
    (parOut failOracle "(a, b)".toList Pdemo = none ∧
     explOut failOracle "(a, b)".toList Pdemo =
       some (explPts ((failOracle "(a, b)".toList xVars).getD (fun _ => .nan)) Pdemo)) :=
  ⟨⟨by decide, Or.inl rfl, by decide, by decide, by decide⟩,
    c2_amendedThm failOracle "(a, b)".toList Pdemo "a".toList "b".toList
      (by decide) (Or.inl rfl) (by decide) (by decide) (by decide)⟩

/-- Claim C3.  The code contradicts the spec's testable property: for the
invalid text `"sin(x"` (unbalanced parenthesis, compile fails) the explicit
branch ignores the result of `parser.compile` (line 508) and still emits a
polyline — built from the constantly-NaN evaluation — so the expression
contributes a drawing primitive instead of none.  The gridline pass is
unaffected, as the claim says. -/
theorem c3_bugThm :
    classify "sin(x".toList = .explicitF "sin(x".toList ∧
    failOracle "sin(x".toList xVars = none ∧
    (frame failOracle tgDemo "sin(x".toList Pdemo).explicitPoly =
      some (explPts (fun _ => FVal.nan) Pdemo) ∧
    (frame failOracle tgDemo "sin(x".toList Pdemo).vertLines =
      (frame oneOracle tgDemo "sin(x)".toList Pdemo).vertLines ∧
    (frame failOracle tgDemo "sin(x".toList Pdemo).horizLines =
      (frame oneOracle tgDemo "sin(x)".toList Pdemo).horizLines :=
  ⟨by decide, rfl, rfl, rfl, rfl⟩

/-- Claim C4, counterexample.  The only zoom-mutating operation is the slider
with bounds `[10, 500]`; at the requested value 700 it yields 500, whereas the
claimed clamp into `[10, 1000]` would leave 700 unchanged. -/
theorem c4_counterexample :
    zoomUpdate 700 = 500 ∧ zoomClampClaim 700 = 700 ∧
    zoomUpdate 700 ≠ zoomClampClaim 700 := by
  refine ⟨?_, ?_, ?_⟩ <;> norm_num [zoomUpdate, zoomClampClaim]

/-- Claim C4, amended.  Every zoom update clamps into `[10, 500]` (the slider
bounds), so in particular `10 ≤ zoom ≤ 1000` still holds, but the upper clamp
bound is 500, not 1000; the initial zoom 100 lies in range. -/
theorem c4_amendedThm :
    (∀ r : ℚ, 10 ≤ zoomUpdate r ∧ zoomUpdate r ≤ 500 ∧ zoomUpdate r ≤ 1000) ∧
    10 ≤ zoomInit ∧ zoomInit ≤ 500 := by
  refine ⟨fun r => ⟨le_max_left _ _, ?_, ?_⟩, by norm_num [zoomInit], by norm_num [zoomInit]⟩
  · exact max_le (by norm_num) (min_le_right _ _)
  · exact le_trans (max_le (by norm_num) (min_le_right _ _)) (by norm_num)

/-- Claim C5, counterexample.  In the frame for `"x<y"` (which the inequality
branch plots: its dot list is nonempty) the light gridline pass still runs and
draws vertical gridlines — the pass is not restricted to frames where no
function is plotted; it is unconditional (lines 175–208 precede all
plotting). -/
theorem c5_counterexample :
    (frame oneOracle tgDemo "x<y".toList Pgrid).inequalityDots.isSome = true ∧
    (frame oneOracle tgDemo "x<y".toList Pgrid).inequalityDots.getD [] ≠ [] ∧
    (frame oneOracle tgDemo "x<y".toList Pgrid).vertLines ≠ [] := by
  refine ⟨by decide, ?_, ?_⟩
  · have hx : gridLo Pgrid.w Pgrid.z ∈
        sampleRange (gridLo Pgrid.w Pgrid.z) (gridHi Pgrid.w Pgrid.z) (ineqStep Pgrid.z) := by
      rw [mem_sampleRange (ineqStep_pos _)]
      refine ⟨0, by norm_num, ?_⟩
      norm_num [gridLo, gridHi, Pgrid]
    have hy : gridLo Pgrid.h Pgrid.z ∈
        sampleRange (gridLo Pgrid.h Pgrid.z) (gridHi Pgrid.h Pgrid.z) (ineqStep Pgrid.z) := by
      rw [mem_sampleRange (ineqStep_pos _)]
      refine ⟨0, by norm_num, ?_⟩
      norm_num [gridLo, gridHi, Pgrid]
    have hmem : ((gridLo Pgrid.w Pgrid.z, gridLo Pgrid.h Pgrid.z),
        (originX Pgrid + gridLo Pgrid.w Pgrid.z * Pgrid.z,
         originY Pgrid - gridLo Pgrid.h Pgrid.z * Pgrid.z)) ∈
        ineqDotsOf (fun _ => FVal.fin 1) Pgrid := by
      unfold ineqDotsOf
      exact List.mem_flatMap.2 ⟨gridLo Pgrid.h Pgrid.z, hy,
        List.mem_filterMap.2 ⟨gridLo Pgrid.w Pgrid.z, hx, by rw [if_pos rfl]⟩⟩
    have hout : (frame oneOracle tgDemo "x<y".toList Pgrid).inequalityDots =
        some (ineqDotsOf (fun _ => FVal.fin 1) Pgrid) := rfl
    rw [hout]
    exact List.ne_nil_of_mem hmem
  · have hstep : lightGridStep Pgrid.z = 1 := gridStepLoop_stop (by norm_num [Pgrid]) 64
    have hcount :
        countLt (originX Pgrid) (Pgrid.px + Pgrid.w) (lightGridStep Pgrid.z * Pgrid.z) = 2 := by
      rw [hstep]
      unfold countLt originX
      rw [if_pos (by norm_num [Pgrid])]
      have h1 : ((Pgrid.px + Pgrid.w) - (Pgrid.px + Pgrid.w / 2 + Pgrid.ox)) / (1 * Pgrid.z)
          = 6 / 5 := by
        norm_num [Pgrid]
      rw [h1]
      have h2 : (⌈(6 / 5 : ℚ)⌉ : ℤ) = 2 := by
        rw [Int.ceil_eq_iff] <;> norm_num
      rw [h2]
      rfl
    have hmem : originX Pgrid + (1 * lightGridStep Pgrid.z) * Pgrid.z ∈
        (frame oneOracle tgDemo "x<y".toList Pgrid).vertLines := by
      show _ ∈ vertLinesOf Pgrid
      unfold vertLinesOf
      refine List.mem_flatMap.2 ⟨1, List.mem_range.2 (by rw [hcount]; norm_num), ?_⟩
      rw [if_neg (by norm_num)]
      simp
    exact List.ne_nil_of_mem hmem

/-- Claim C5, amended.  The light gridline pass selects its world-unit step by
starting at 1.0 and doubling until the on-screen spacing `step * zoom` reaches
the 20-pixel minimum (`20 ≤ step·zoom`, `step` a power of two, minimal: the
halved step would be under 20 px); but the pass runs on *every* frame,
independent of the expression text, the compile collaborator and whatever is
plotted — it is not an alternate used only when no functions are plotted (nor
does `src/` contain any breakpoint-table tick generator as a second path). -/
theorem c5_amendedThm (P : Params) (hz : 1 ≤ P.z) (o₁ o₂ : Oracle)
    (tg₁ tg₂ : ℚ → ℚ × ℚ) (s₁ s₂ : Str) :
    20 ≤ lightGridStep P.z * P.z ∧
    (lightGridStep P.z ≠ 1 → lightGridStep P.z / 2 * P.z < 20) ∧
    (∃ k : ℕ, lightGridStep P.z = 2 ^ k) ∧
    (frame o₁ tg₁ s₁ P).gridStep = lightGridStep P.z ∧
    (frame o₁ tg₁ s₁ P).vertLines = (frame o₂ tg₂ s₂ P).vertLines ∧
    (frame o₁ tg₁ s₁ P).horizLines = (frame o₂ tg₂ s₂ P).horizLines := by
  have h64 : (20 : ℚ) ≤ 2 ^ 64 := by norm_num
  have hfuel : 20 ≤ 1 * 2 ^ 64 * P.z := by nlinarith
  obtain ⟨h1, h2, k, hk⟩ := gridStepLoop_spec P.z 64 1 one_pos hfuel
  exact ⟨h1, h2, ⟨k, by simpa using hk⟩, rfl, rfl, rfl⟩

/-- Witness for `c5_amendedThm` at zoom 25 with two different texts and
collaborators. -/
theorem c5_amendedWitness :
    (1 ≤ Pgrid.z) ∧
    (20 ≤ lightGridStep Pgrid.z * Pgrid.z ∧
     (lightGridStep Pgrid.z ≠ 1 → lightGridStep Pgrid.z / 2 * Pgrid.z < 20) ∧
     (∃ k : ℕ, lightGridStep Pgrid.z = 2 ^ k) ∧
     (frame failOracle tgDemo "a".toList Pgrid).gridStep = lightGridStep Pgrid.z ∧
     (frame failOracle tgDemo "a".toList Pgrid).vertLines =
       (frame oneOracle tgDemo "x<y".toList Pgrid).vertLines ∧
     (frame failOracle tgDemo "a".toList Pgrid).horizLines =
       (frame oneOracle tgDemo "x<y".toList Pgrid).horizLines) :=
  ⟨by norm_num [Pgrid],
    c5_amendedThm Pgrid (by norm_num [Pgrid]) failOracle oneOracle tgDemo tgDemo
      "a".toList "x<y".toList⟩

/-- Claim C6, counterexample.  For `"sin(r=1)"` the `=` sits at parenthesis
depth 1, so a depth-0 substring search finds no `r=`/`r =` prefix — under the
claim the text would not be Polar.  The code's plain `std::string::find`
matches at any depth: the text is polar-detected and (no earlier branch
matching) classified Polar, with radius text `"1)"`. -/
theorem c6_counterexample :
    isPolarStr "sin(r=1)".toList = true ∧
    depth0PolarDetect "sin(r=1)".toList = false ∧
    classify "sin(r=1)".toList = .polarF "1)".toList := by
  decide

/-- Claim C6, amended.  The polar test is a plain substring search at *any*
parenthesis depth: it succeeds exactly when `r=` or `r =` occurs somewhere in
the text; given no earlier form matched, such a text classifies Polar.  The
radius expression handed to the compiler is the portion after the first `=` at
or after the found prefix, with leading spaces/tabs stripped (e.g. the two
concrete extractions below). -/
theorem c6_amendedThm :
    (∀ s : Str, isPolarStr s = true ↔
      (∃ j, (s.drop j).take 2 = ['r', '=']) ∨
      (∃ j, (s.drop j).take 3 = ['r', ' ', '='])) ∧
    (∀ s : Str, parMatch s = none → hasInequalityOperator s = false →
      implicitForm s = none → isPolarStr s = true →
      classify s = .polarF (polarRadius s)) ∧
    polarRadius "r=1+0.5*cos(theta)".toList = "1+0.5*cos(theta)".toList ∧
    polarRadius "r = 2".toList = "2".toList := by
  refine ⟨?_, ?_, by decide, by decide⟩
  · intro s
    unfold isPolarStr findSub
    rw [decide_eq_true_eq]
    constructor
    · rintro (h | h)
      · exact Or.inl ((findSubGo_isSome_iff ['r', '='] (by decide) s 0).1 h)
      · exact Or.inr ((findSubGo_isSome_iff ['r', ' ', '='] (by decide) s 0).1 h)
    · rintro (h | h)
      · exact Or.inl ((findSubGo_isSome_iff ['r', '='] (by decide) s 0).2 h)
      · exact Or.inr ((findSubGo_isSome_iff ['r', ' ', '='] (by decide) s 0).2 h)
  · intro s h1 h2 h3 h4
    unfold classify
    rw [h1]
    simp [h2, h3, h4]

/-- Witness for `c6_amendedThm` (the classification conjunct) at
`"sin(r=1)"`. -/
theorem c6_amendedWitness :
    (parMatch "sin(r=1)".toList = none ∧
     hasInequalityOperator "sin(r=1)".toList = false ∧
     implicitForm "sin(r=1)".toList = none ∧
     isPolarStr "sin(r=1)".toList = true) ∧
    classify "sin(r=1)".toList = .polarF (polarRadius "sin(r=1)".toList) :=
  ⟨⟨by decide, by decide, by decide, by decide⟩,
    c6_amendedThm.2.1 "sin(r=1)".toList (by decide) (by decide) (by decide) (by decide)⟩

/-- Claim C7, counterexample.  A sample pair `(+inf, -1)` — the first value
not finite — does satisfy the code's crossing test `prev * curr < 0` and does
emit a point (whose interpolated position is NaN): in the two-sample scan
below exactly one point is emitted.  So "both samples finite" is not necessary
for emission. -/
theorem c7_counterexample :
    crossingB .pinf (.fin (-1)) = true ∧
    isFiniteV .pinf = false ∧
    crossings 1 (fun q => if q = 0 then FVal.pinf else .fin (-1)) [0, 1] = [.nan] := by
  decide

/-- Claim C7, amended.  A zero-crossing point is emitted between two
consecutive samples iff `prev * curr < 0` under IEEE sign rules: exactly when
one value is strictly positive (a positive rational or `+inf`) and the other
strictly negative — a zero or NaN sample never counts by itself, but opposite
signed *infinite* samples do count; finiteness is not required.  The scan is
the adjacent-pairs filter (`crossingsSpec`), used identically by the
horizontal and the vertical pass, and for finite samples the emitted position
is the exact linear interpolation `(x - step) + (prev/(prev-curr))·step`. -/
theorem c7_amendedThm :
    (∀ p c : FVal, crossingB p c = true ↔
      (isPosV p ∧ isNegV c) ∨ (isNegV p ∧ isPosV c)) ∧
    (∀ (step : ℚ) (f : ℚ → FVal) (xs : List ℚ),
      crossings step f xs = crossingsSpec step f xs) ∧
    (∀ (step x a b : ℚ), a * b < 0 →
      interp step x (.fin a) (.fin b) = .fin ((x - step) + a / (a - b) * step)) :=
  ⟨crossingB_iff, crossings_eq_spec, fun step x a b hab => interp_fin step x hab⟩

/-- Witness for `c7_amendedThm` (the interpolation conjunct) at
`prev = -1`, `curr = 2`. -/
theorem c7_amendedWitness :
    ((-1 : ℚ) * 2 < 0) ∧
    interp 1 0 (.fin (-1)) (.fin 2) = .fin ((0 - 1) + (-1) / ((-1) - 2) * 1) :=
  ⟨by norm_num, c7_amendedThm.2.2 1 0 (-1) 2 (by norm_num)⟩

/-- Claim C8, counterexample.  The inequality grid's world bounds are derived
from canvas size and zoom only: `gridLo` (the bound `ineqDotsOf` samples from)
has no pan parameter.  At canvas width 400, zoom 100 and pan 100 px the
visible rectangle's left edge is `-3`, but the grid starts at `-2` — the grid
is not the visible world rectangle.  (The frame still plots inequality dots
there, at screen positions that do use the pan.) -/
theorem c8_counterexample :
    gridLo 400 100 = -2 ∧
    specVisibleXLo 400 100 100 = -3 ∧
    gridLo 400 100 ≠ specVisibleXLo 400 100 100 ∧
    (frame oneOracle tgDemo "x<y".toList
      (⟨100, 400, 400, 100, 0, 0, 0⟩ : Params)).inequalityDots.isSome = true :=
  ⟨by norm_num [gridLo], by norm_num [specVisibleXLo],
    by norm_num [gridLo, specVisibleXLo], by decide⟩

/-- Claim C8, amended.  The inequality renderer iterates the 2-D grid over the
rectangle `[-w/(2·zoom), w/(2·zoom)] × [-h/(2·zoom), h/(2·zoom)]` — derived
from canvas size and zoom only, the pan is ignored — with step
`max(0.025, 1.5/zoom)` in both axes, and draws a dot of radius
`max(1.5, zoom/60)` at the mapped screen position (which does include the pan,
via `originX`/`originY`) of a grid point exactly when the compiled expression
evaluates to exactly `1.0` (structural equality, no tolerance). -/
theorem c8_amendedThm :
    (∀ (e : List ℚ → FVal) (P : Params) (d : (ℚ × ℚ) × (ℚ × ℚ)),
      d ∈ ineqDotsOf e P ↔ ∃ wx wy : ℚ,
        (∃ i : ℕ, wx = gridLo P.w P.z + i * ineqStep P.z) ∧ wx ≤ gridHi P.w P.z ∧
        (∃ j : ℕ, wy = gridLo P.h P.z + j * ineqStep P.z) ∧ wy ≤ gridHi P.h P.z ∧
        e [wx, wy] = .fin 1 ∧
        d = ((wx, wy), (originX P + wx * P.z, originY P - wy * P.z))) ∧
    (∀ z : ℚ, ineqStep z = max (1 / 40) (3 / (2 * z)) ∧
      ineqRadius z = max (3 / 2) (z / 60)) := by
  constructor
  · intro e P d
    unfold ineqDotsOf
    rw [List.mem_flatMap]
    constructor
    · rintro ⟨wy, hy, hd⟩
      obtain ⟨wx, hx, hxd⟩ := List.mem_filterMap.1 hd
      obtain ⟨j, hj, hjhi⟩ := (mem_sampleRange (ineqStep_pos P.z)).1 hy
      obtain ⟨i, hi', hihi⟩ := (mem_sampleRange (ineqStep_pos P.z)).1 hx
      by_cases he : e [wx, wy] = .fin 1
      · rw [if_pos he] at hxd
        exact ⟨wx, wy, ⟨i, hi'⟩, hihi, ⟨j, hj⟩, hjhi, he, (Option.some.inj hxd).symm⟩
      · rw [if_neg he] at hxd
        exact absurd hxd (by simp)
    · rintro ⟨wx, wy, ⟨i, hi'⟩, hxhi, ⟨j, hj⟩, hyhi, he, rfl⟩
      exact ⟨wy, (mem_sampleRange (ineqStep_pos P.z)).2 ⟨j, hj, hyhi⟩,
        List.mem_filterMap.2 ⟨wx, (mem_sampleRange (ineqStep_pos P.z)).2 ⟨i, hi', hxhi⟩,
          by rw [if_pos he]⟩⟩
  · exact fun z => ⟨rfl, rfl⟩

/-- Claim C9.  When a parenthesised text with a top-level comma is selected
and both components compile, the parametric branch samples `t` over the fixed
list `paramTs` — `t` from `-10` to `10` at step `0.02`, a constant independent
of zoom, pan and canvas — evaluates both components at each `t`, maps through
the viewport transform (`toScreenF`), and emits the result as one polyline. -/
theorem c9_thm (o : Oracle) (s : Str) (P : Params) (f g : Str)
    (ef eg : List ℚ → FVal)
    (hpar : parMatch s = some (f, g))
    (hf : o f tVars = some ef) (hg : o g tVars = some eg) :
    parOut o s P = some (paramTs.map (fun t => toScreenF P (ef [t]) (eg [t]))) ∧
    paramTs = sampleRange (-10) 10 (1 / 50) := by
  constructor
  · simp [parOut, hpar, hf, hg]
  · rfl

/-- Witness for `c9_thm` at `"(1, 2)"` with the all-compiles collaborator. -/
theorem c9_witness :
    (parMatch "(1, 2)".toList = some ("1".toList, "2".toList) ∧
     oneOracle "1".toList tVars = some (fun _ => .fin 1) ∧
     oneOracle "2".toList tVars = some (fun _ => .fin 1)) ∧
    (parOut oneOracle "(1, 2)".toList Pdemo =
      some (paramTs.map (fun t =>
        toScreenF Pdemo ((fun _ => FVal.fin 1) [t]) ((fun _ => FVal.fin 1) [t]))) ∧
     paramTs = sampleRange (-10) 10 (1 / 50)) :=
  ⟨⟨by decide, rfl, rfl⟩,
    c9_thm oneOracle "(1, 2)".toList Pdemo "1".toList "2".toList _ _
      (by decide) rfl rfl⟩

/-- Claim C10.  In every frame at most one of the five plotting strategies
emits curve primitives for the expression: whenever an earlier branch draws
(or, for the inequality/implicit branches, compiles successfully, which sets
the `plotted` flag), every later branch is guarded off, and polar/explicit are
the two arms of one conditional.  `emitsCount` counts the branches whose
emitted primitive set is nonempty. -/
theorem c10_thm (o : Oracle) (tg : ℚ → ℚ × ℚ) (s : Str) (P : Params) :
    emitsCount o tg s P ≤ 1 := by
  unfold emitsCount
  by_cases hp : (parOut o s P).isSome
  · have h2 : ineqOut o s P = none := by unfold ineqOut; rw [if_pos hp]
    have h3 : implOut o s P = none := by unfold implOut; rw [if_pos (Or.inl hp)]
    have h4 : polarOut o tg s P = none := by unfold polarOut; rw [if_pos (Or.inl hp)]
    have h5 : explOut o s P = none := by unfold explOut; rw [if_pos (Or.inl hp)]
    simp [hp, h2, h3, h4, h5]
  · by_cases hi : (ineqOut o s P).isSome
    · have h3 : implOut o s P = none := by unfold implOut; rw [if_pos (Or.inr hi)]
      have h4 : polarOut o tg s P = none := by
        unfold polarOut; rw [if_pos (Or.inr (Or.inl hi))]
      have h5 : explOut o s P = none := by
        unfold explOut; rw [if_pos (Or.inr (Or.inl hi))]
      simp [hp, h3, h4, h5]
      split_ifs <;> norm_num
    · have hi0 : ineqOut o s P = none := Option.not_isSome_iff_eq_none.1 (by simpa using hi)
      by_cases hm : (implOut o s P).isSome
      · have h4 : polarOut o tg s P = none := by
          unfold polarOut; rw [if_pos (Or.inr (Or.inr hm))]
        have h5 : explOut o s P = none := by
          unfold explOut; rw [if_pos (Or.inr (Or.inr hm))]
        simp [hp, hi0, h4, h5]
        split_ifs <;> norm_num
      · have hm0 : implOut o s P = none := Option.not_isSome_iff_eq_none.1 (by simpa using hm)
        have hg : ¬((parOut o s P).isSome ∨ (ineqOut o s P).isSome ∨
            (implOut o s P).isSome) := by
          rintro (h | h | h) <;> simp_all
        by_cases hpol : isPolarStr s
        · have h5 : explOut o s P = none := by
            unfold explOut; rw [if_neg hg, if_pos hpol]
          simp [hp, hi0, hm0, h5]
          split_ifs <;> norm_num
        · have h4 : polarOut o tg s P = none := by
            unfold polarOut; rw [if_neg hg, if_neg hpol]
          simp [hp, hi0, hm0, h4]
          split_ifs <;> norm_num

end ImGraph
